import Mathlib

/-!
Verification development for the `epl-edge` odds pipeline.

The definitions below are a shallow embedding of the Python sources
(`src/collect.py`, `src/db.py`, `src/export.py`, `src/utils.py`):

* Python strings are `String`; a value that may be `None` is an `Option`.
* SQLite `REAL` prices and lines are modelled as `ℚ` (exact arithmetic);
  a numeric field that is missing, or whose `float(...)` coercion fails,
  is `none`.
* The `fixtures` table is a `List Fixture`; the `odds_snapshots` table is
  a `List SnapRow`, where `snapshot_id` plays the role of the
  `INTEGER PRIMARY KEY AUTOINCREMENT` column.
* SQL queries are translated clause by clause into list operations.
-/

/-! ### Character primitives

Python's `str.strip` removes the characters below from both ends;
`str.lower` and SQLite's `lower()` both map `A`-`Z` to `a`-`z`
(SQLite folds ASCII only; the Python pipeline only ever feeds these
functions with ASCII team/market names). -/

/-- The whitespace set stripped by Python `str.strip()` (ASCII part). -/
def pyIsSpace (c : Char) : Bool :=
  c.toNat = 32 || c.toNat = 9 || c.toNat = 10 || c.toNat = 13 || c.toNat = 11 || c.toNat = 12

/-- ASCII lower-casing of one character, as done by Python `str.lower()`
and SQLite `lower()`. -/
def lowerChar (c : Char) : Char :=
  if 65 ≤ c.toNat ∧ c.toNat ≤ 90 then Char.ofNat (c.toNat + 32) else c

theorem charToNat_ofNat_of_valid {n : Nat} (h : n.isValidChar) : (Char.ofNat n).toNat = n := by
  rw [Char.ofNat, dif_pos h]
  rfl

theorem lowerChar_toNat (c : Char) (h : 65 ≤ c.toNat ∧ c.toNat ≤ 90) :
    (lowerChar c).toNat = c.toNat + 32 := by
  rw [lowerChar, if_pos h]
  exact charToNat_ofNat_of_valid (Or.inl (by omega))

theorem lowerChar_eq_self (c : Char) (h : ¬ (65 ≤ c.toNat ∧ c.toNat ≤ 90)) :
    lowerChar c = c := by
  rw [lowerChar, if_neg h]

theorem lowerChar_idem (c : Char) : lowerChar (lowerChar c) = lowerChar c := by
  by_cases h : 65 ≤ c.toNat ∧ c.toNat ≤ 90
  · have h1 := lowerChar_toNat c h
    exact lowerChar_eq_self _ (by omega)
  · rw [lowerChar_eq_self c h]
    exact lowerChar_eq_self c h

theorem pyIsSpace_lowerChar (c : Char) : pyIsSpace (lowerChar c) = pyIsSpace c := by
  by_cases h : 65 ≤ c.toNat ∧ c.toNat ≤ 90
  · have h1 := lowerChar_toNat c h
    have hA : pyIsSpace (lowerChar c) = false := by
      simp only [pyIsSpace, Bool.or_eq_false_iff, decide_eq_false_iff_not]
      omega
    have hB : pyIsSpace c = false := by
      simp only [pyIsSpace, Bool.or_eq_false_iff, decide_eq_false_iff_not]
      omega
    rw [hA, hB]
  · rw [lowerChar_eq_self c h]

/-! ### Strip / lower on whole strings -/

/-- `str.strip()` on the underlying character list: drop whitespace from
the front, then from the back. -/
def stripChars (l : List Char) : List Char :=
  ((l.dropWhile pyIsSpace).reverse.dropWhile pyIsSpace).reverse

/-- Python `str.strip()`. -/
def pyStrip (s : String) : String := ⟨stripChars s.data⟩

/-- Python `str.lower()` (and SQLite `lower()` on ASCII data). -/
def pyLower (s : String) : String := ⟨s.data.map lowerChar⟩

/-- `_norm` from `src/collect.py`: `(s or "").strip().lower()`.
The argument is `Option String` because callers pass values obtained
from `dict.get`, which may be `None`. -/
def _norm (s : Option String) : String := pyLower (pyStrip (s.getD ""))

/-- SQLite `lower(column)` as used in `_fixture_id_for_event`; note it
lower-cases but does not strip. -/
def sqlLower (s : String) : String := pyLower s

/-! ### Idempotence lemmas for the normalizer -/

theorem dropWhile_map_lowerChar (l : List Char) :
    (l.map lowerChar).dropWhile pyIsSpace = (l.dropWhile pyIsSpace).map lowerChar := by
  induction l with
  | nil => rfl
  | cons a t ih =>
    simp only [List.map_cons, List.dropWhile_cons, pyIsSpace_lowerChar a]
    by_cases h : pyIsSpace a
    · rw [if_pos h, if_pos h, ih]
    · rw [if_neg h, if_neg h, List.map_cons]

theorem stripChars_map_lowerChar (l : List Char) :
    stripChars (l.map lowerChar) = (stripChars l).map lowerChar := by
  unfold stripChars
  rw [dropWhile_map_lowerChar, ← List.map_reverse, dropWhile_map_lowerChar, ← List.map_reverse]

theorem dropWhile_idem (p : α → Bool) (l : List α) :
    (l.dropWhile p).dropWhile p = l.dropWhile p := by
  induction l with
  | nil => rfl
  | cons a t ih =>
    by_cases h : p a
    · rw [List.dropWhile_cons, if_pos h, ih]
    · rw [List.dropWhile_cons, if_neg h, List.dropWhile_cons, if_neg h]

theorem dropWhile_eq_self_of_head (p : α → Bool) (l : List α)
    (h : ∀ a, l.head? = some a → p a = false) : l.dropWhile p = l := by
  cases l with
  | nil => rfl
  | cons a t =>
    rw [List.dropWhile_cons, if_neg]
    rw [h a rfl]
    simp

theorem head?_dropWhile_false (p : α → Bool) (l : List α) (a : α)
    (h : (l.dropWhile p).head? = some a) : p a = false := by
  have := List.head?_dropWhile_not p l
  rw [h] at this
  exact this

theorem getLast?_dropWhile (p : α → Bool) (l : List α) (a : α)
    (h : (l.dropWhile p).getLast? = some a) : l.getLast? = some a := by
  obtain ⟨pre, hpre⟩ := List.dropWhile_suffix p (l := l)
  rw [← hpre, List.getLast?_append, h]
  rfl

theorem stripChars_no_leading (l : List Char) (a : Char)
    (h : (stripChars l).head? = some a) : pyIsSpace a = false := by
  unfold stripChars at h
  rw [List.head?_reverse] at h
  have h2 := getLast?_dropWhile pyIsSpace (l.dropWhile pyIsSpace).reverse a h
  rw [List.getLast?_reverse] at h2
  exact head?_dropWhile_false pyIsSpace l a h2

theorem stripChars_idem (l : List Char) : stripChars (stripChars l) = stripChars l := by
  have h1 : (stripChars l).dropWhile pyIsSpace = stripChars l :=
    dropWhile_eq_self_of_head _ _ (stripChars_no_leading l)
  have h2 : (stripChars l).reverse.dropWhile pyIsSpace = (stripChars l).reverse := by
    unfold stripChars
    rw [List.reverse_reverse]
    exact dropWhile_idem _ _
  unfold stripChars
  show (((stripChars l).dropWhile pyIsSpace).reverse.dropWhile pyIsSpace).reverse = stripChars l
  rw [h1, h2, List.reverse_reverse]

theorem map_lowerChar_idem (l : List Char) :
    (l.map lowerChar).map lowerChar = l.map lowerChar := by
  rw [List.map_map]
  exact List.map_congr_left fun c _ => lowerChar_idem c

theorem norm_idem (s : String) : _norm (some (_norm (some s))) = _norm (some s) := by
  show pyLower (pyStrip (pyLower (pyStrip s))) = pyLower (pyStrip s)
  unfold pyLower pyStrip
  simp only [String.data]
  rw [stripChars_map_lowerChar, stripChars_idem, map_lowerChar_idem]

/-! ### Data model

`Fixture` mirrors one row of the `fixtures` table of `SCHEMA_SQL`
(`src/db.py`); `InsRow` is the 7-tuple handed to the `INSERT INTO
odds_snapshots` statement in `_store_rows`; `SnapRow` is one stored row
of `odds_snapshots`, with `snapshot_id` the AUTOINCREMENT primary key.
`line`, `over_price` and `under_price` are kept as `Option ℚ` so that a
`NULL` snapshot line is expressible; the schema itself declares the
`line` column `NOT NULL`. -/

structure Fixture where
  fixture_id : String
  commence_time_utc : String
  matchweek : Option Int
  status : String
  home_team : String
  away_team : String
  home_goals : Option Int
  away_goals : Option Int
  last_updated_utc : Option String
deriving DecidableEq, Repr

structure InsRow where
  captured_at_utc : String
  fixture_id : String
  bookmaker : String
  market : String
  line : Option ℚ
  over_price : Option ℚ
  under_price : Option ℚ
deriving DecidableEq, Repr

structure SnapRow where
  snapshot_id : Nat
  captured_at_utc : String
  fixture_id : String
  bookmaker : String
  market : String
  line : Option ℚ
  over_price : Option ℚ
  under_price : Option ℚ
deriving DecidableEq, Repr

/-- The full logical key of a snapshot row: the spec's
`(captured_at_utc, fixture_id, bookmaker, market, line)`. -/
def fullKey (r : SnapRow) : String × String × String × String × Option ℚ :=
  (r.captured_at_utc, r.fixture_id, r.bookmaker, r.market, r.line)

/-! ### The odds-provider payload shape

One decoded Odds API event: `dict.get` on a missing field yields `None`,
hence `Option` fields.  `price`/`point` hold the value after Python's
`float(...)` coercion; `none` covers both a missing field and a value on
which `float(...)` raises (the code skips that outcome either way). -/

structure Outcome where
  name : Option String
  price : Option ℚ
  point : Option ℚ
deriving DecidableEq, Repr

structure MarketObj where
  key : Option String
  outcomes : List Outcome
deriving DecidableEq, Repr

structure BookmakerObj where
  key : Option String
  title : Option String
  markets : List MarketObj
deriving DecidableEq, Repr

structure EventObj where
  id : Option String
  commence_time : Option String
  home_team : Option String
  away_team : Option String
  bookmakers : List BookmakerObj
deriving DecidableEq, Repr

/-- Python truthiness of an optional string: `None` and `""` are falsy. -/
def truthy (s : Option String) : Bool :=
  match s with
  | some t => t ≠ ""
  | none => false

/-- Python `a or b` on an optional string (falls through on `None` and `""`). -/
def pyOrElse (s : Option String) (d : String) : String :=
  match s with
  | some t => if t = "" then d else t
  | none => d

/-- `bm.get("title") or bm.get("key") or "unknown_book"`. -/
def bmDisplay (bm : BookmakerObj) : String :=
  pyOrElse bm.title (pyOrElse bm.key "unknown_book")

/-! ### Fixture matcher (`_fixture_id_for_event`, src/collect.py:208) -/

/-- `_fixture_id_for_event`: the SQL query
`SELECT fixture_id FROM fixtures WHERE commence_time_utc = ? AND
lower(home_team) = ? AND lower(away_team) = ? LIMIT 1` with parameters
`(commence, _norm(home), _norm(away))`.  `LIMIT 1` is the first row in
table scan order; a missing row is `none` (the Python function returns
`None`, falling through the `sqlite3.Row` / tuple accessors). -/
def _fixture_id_for_event (fixtures : List Fixture) (commence : String)
    (home : String) (away : String) : Option String :=
  (fixtures.find? (fun f =>
    decide (f.commence_time_utc = commence ∧
      sqlLower f.home_team = _norm (some home) ∧
      sqlLower f.away_team = _norm (some away)))).map (fun f => f.fixture_id)

/-! ### Market extractor (`store_base_market_snapshots`, src/collect.py:275) -/

/-- Value type of the `by_line` dicts: the two prices collected so far at
one line.  For totals, `a` is the Over price and `b` the Under price
(`ou["over"]`, `ou["under"]`); for spreads, `a` is the home price and `b`
the away price (`vals["home"]`, `vals["away"]`). -/
structure Sides where
  a : Option ℚ
  b : Option ℚ
deriving DecidableEq, Repr

/-- Writing the first slot: `by_line.setdefault(ln, {})["over"] = pr`
(resp. `["home"]`). -/
def setA (pr : ℚ) (s : Sides) : Sides := { s with a := some pr }

/-- Writing the second slot: `by_line.setdefault(ln, {})["under"] = pr`
(resp. `["away"]`). -/
def setB (pr : ℚ) (s : Sides) : Sides := { s with b := some pr }

/-- `by_line.setdefault(ln, emp)` followed by a mutation `f` of the entry:
update the first entry with key `ln`, or append a fresh one.  (A Python
dict has unique keys and preserves insertion order, which this assoc
list reproduces.) -/
def dictUpd {S : Type} (emp : S) (f : S → S) : List (ℚ × S) → ℚ → List (ℚ × S)
  | [], ln => [(ln, f emp)]
  | (k, v) :: rest, ln =>
    if k = ln then (k, f v) :: rest else (k, v) :: dictUpd emp f rest ln

/-- The body of the totals outcome loop (src/collect.py:308-321): skip an
outcome whose point or price is missing/unparsable, keep only names
normalizing to `"over"`/`"under"`, and record the price under the
outcome's point value. -/
def totalsStep (m : List (ℚ × Sides)) (o : Outcome) : List (ℚ × Sides) :=
  match o.point, o.price with
  | some ln, some pr =>
    let name := _norm o.name
    if name = "over" then dictUpd ⟨none, none⟩ (setA pr) m ln
    else if name = "under" then dictUpd ⟨none, none⟩ (setB pr) m ln
    else m
  | _, _ => m

/-- The `by_line` dict built by the totals branch. -/
def totals_by_line (outs : List Outcome) : List (ℚ × Sides) :=
  outs.foldl totalsStep []

/-- Rows emitted for one totals market (src/collect.py:323-325): one row
per line at which both sides are present. -/
def store_totals_rows (captured_at fixture_id bm_title : String)
    (outs : List Outcome) : List InsRow :=
  (totals_by_line outs).filterMap (fun kv =>
    match kv.2.a, kv.2.b with
    | some ov, some un =>
      some ⟨captured_at, fixture_id, bm_title, "totals", some kv.1, some ov, some un⟩
    | _, _ => none)

/-- The body of the spreads outcome loop (src/collect.py:330-346): an
outcome needs point, name and price; the normalized name is compared
against the normalized home team name first, then (elif) the away name. -/
def spreadsStep (home away : String) (m : List (ℚ × Sides)) (o : Outcome) :
    List (ℚ × Sides) :=
  match o.point, o.name, o.price with
  | some ln, some name, some pr =>
    let nm := _norm (some name)
    if nm = _norm (some home) then dictUpd ⟨none, none⟩ (setA pr) m ln
    else if nm = _norm (some away) then dictUpd ⟨none, none⟩ (setB pr) m ln
    else m
  | _, _, _ => m

/-- The `by_line` dict built by the spreads branch. -/
def spreads_by_line (home away : String) (outs : List Outcome) : List (ℚ × Sides) :=
  outs.foldl (spreadsStep home away) []

/-- Rows emitted for one spreads market (src/collect.py:348-350). -/
def store_spreads_rows (captured_at fixture_id bm_title home away : String)
    (outs : List Outcome) : List InsRow :=
  (spreads_by_line home away outs).filterMap (fun kv =>
    match kv.2.a, kv.2.b with
    | some hp, some ap =>
      some ⟨captured_at, fixture_id, bm_title, "spreads", some kv.1, some hp, some ap⟩
    | _, _ => none)

/-- Dispatch on `mk.get("key")` inside the bookmaker loop. -/
def rows_for_market (captured_at fixture_id bm_title home away : String)
    (mk : MarketObj) : List InsRow :=
  if mk.key = some "totals" then store_totals_rows captured_at fixture_id bm_title mk.outcomes
  else if mk.key = some "spreads" then
    store_spreads_rows captured_at fixture_id bm_title home away mk.outcomes
  else []

/-- The row list built by `store_base_market_snapshots` before it is
handed to `_store_rows`: skip events missing commence/home/away, skip
events with no matching fixture, then run the per-market extraction for
every bookmaker and market. -/
def store_base_market_snapshots (fixtures : List Fixture) (events : List EventObj)
    (captured_at : String) : List InsRow :=
  events.foldl (fun rows ev =>
    if truthy ev.commence_time && truthy ev.home_team && truthy ev.away_team then
      let commence := ev.commence_time.getD ""
      let home := ev.home_team.getD ""
      let away := ev.away_team.getD ""
      match _fixture_id_for_event fixtures commence home away with
      | some fid =>
        if fid = "" then rows
        else
          rows ++ ev.bookmakers.foldl (fun rs bm =>
            rs ++ bm.markets.foldl (fun rs2 mk =>
              rs2 ++ rows_for_market captured_at fid (bmDisplay bm) home away mk) []) []
      | none => rows
    else rows) []

/-! ### BTTS extractor (`store_btts_snapshots`, src/collect.py:355) -/

/-- The yes/no price scan over one btts market's outcomes
(src/collect.py:429-445): later outcomes overwrite earlier ones. -/
def btts_prices (outs : List Outcome) : Option ℚ × Option ℚ :=
  outs.foldl (fun acc o =>
    match o.price with
    | some prf =>
      let nm := _norm o.name
      if nm = "yes" ∨ nm = "y" then (some prf, acc.2)
      else if nm = "no" ∨ nm = "n" then (acc.1, some prf)
      else acc
    | none => acc) (none, none)

/-- Rows emitted for one btts market (src/collect.py:447-448): when both
prices are present, one row with `line = 0.0` (`market='btts'`). -/
def store_btts_rows (captured_at fixture_id bm_title : String)
    (outs : List Outcome) : List InsRow :=
  match btts_prices outs with
  | (some y, some n) => [⟨captured_at, fixture_id, bm_title, "btts", some 0, some y, some n⟩]
  | _ => []

/-- The rows `store_btts_snapshots` appends for one fetched event payload
(the loop of src/collect.py:422-448), given the already-matched fixture
id and the payload's bookmaker list. -/
def store_btts_snapshot_rows (captured_at fixture_id : String)
    (bookmakers : List BookmakerObj) : List InsRow :=
  bookmakers.foldl (fun rs bm =>
    rs ++ bm.markets.foldl (fun rs2 mk =>
      if mk.key = some "btts" then
        rs2 ++ store_btts_rows captured_at fixture_id (bmDisplay bm) mk.outcomes
      else rs2) []) []

/-! ### Snapshot store (`_store_rows`, src/collect.py:258; `SCHEMA_SQL`) -/

/-- The next AUTOINCREMENT id: one more than the largest id ever used
(for a store never deleted from, the largest present id). -/
def nextId (store : List SnapRow) : Nat :=
  store.foldl (fun a r => max a r.snapshot_id) 0 + 1

/-- Turn an inserted 7-tuple into a stored row with its assigned id. -/
def mkSnap (id : Nat) (r : InsRow) : SnapRow :=
  ⟨id, r.captured_at_utc, r.fixture_id, r.bookmaker, r.market, r.line,
    r.over_price, r.under_price⟩

/-- `_store_rows`: a plain `INSERT INTO odds_snapshots` of every tuple —
the table has no UNIQUE constraint beyond the AUTOINCREMENT primary key,
so every tuple becomes a fresh physical row. -/
def _store_rows (store : List SnapRow) (rows : List InsRow) : List SnapRow :=
  store ++ rows.enum.map (fun p => mkSnap (nextId store + p.1) p.2)

/-! ### Export / latest() read path (`export_odds_json`, src/export.py) -/

def ALLOWED_MARKETS : List String := ["totals", "alternate_totals", "spreads", "btts"]

/-- One row of the `ranked ... WHERE rn = 1` query result. -/
structure ExportRow where
  captured_at_utc : String
  fixture_id : String
  commence_time_utc : String
  matchweek : Option Int
  status : String
  home_team : String
  away_team : String
  home_goals : Option Int
  away_goals : Option Int
  bookmaker : String
  market : String
  line : Option ℚ
  over_price : Option ℚ
  under_price : Option ℚ
deriving DecidableEq, Repr

/-- The window partition `PARTITION BY o.fixture_id, o.bookmaker,
o.market, o.line`. -/
def samePartition (a b : SnapRow) : Bool :=
  decide (a.fixture_id = b.fixture_id ∧ a.bookmaker = b.bookmaker ∧
    a.market = b.market ∧ a.line = b.line)

/-- SQLite's default BINARY collation on `TEXT`: byte-wise (for the ASCII
timestamps stored here, codepoint-wise) lexicographic comparison. -/
def strLtChars : List Char → List Char → Bool
  | [], [] => false
  | [], _ :: _ => true
  | _ :: _, [] => false
  | a :: as, b :: bs =>
    if a.toNat < b.toNat then true
    else if b.toNat < a.toNat then false
    else strLtChars as bs

/-- `a < b` in SQLite TEXT order. -/
def sqlTextLt (a b : String) : Bool := strLtChars a.data b.data

/-- `a` sorts strictly before `b` under `ORDER BY captured_at_utc DESC`
within a partition.  SQLite leaves the order of rows with equal
`captured_at_utc` unspecified but fixed for a given table; the model
resolves such ties by the insertion sequence (`snapshot_id`), which is
one deterministic realisation. -/
def beats (a b : SnapRow) : Bool :=
  sqlTextLt b.captured_at_utc a.captured_at_utc ||
    (decide (a.captured_at_utc = b.captured_at_utc) && decide (a.snapshot_id < b.snapshot_id))

/-- Join one snapshot row with its fixture, as in the SELECT list. -/
def mkExportRow (o : SnapRow) (f : Fixture) : ExportRow :=
  ⟨o.captured_at_utc, o.fixture_id, f.commence_time_utc, f.matchweek, f.status,
    f.home_team, f.away_team, f.home_goals, f.away_goals, o.bookmaker, o.market,
    o.line, o.over_price, o.under_price⟩

/-- The `latest()` read path: the `ranked` CTE filtered to `rn = 1`.
A snapshot row survives when its market is allowed, it joins a fixture
(`fixtures.fixture_id` is the primary key, so `find?` is the unique
match), and no row of the same partition sorts before it. -/
def latest_rows (snaps : List SnapRow) (fixtures : List Fixture) : List ExportRow :=
  snaps.filterMap (fun o =>
    if o.market ∈ ALLOWED_MARKETS then
      match fixtures.find? (fun f => f.fixture_id == o.fixture_id) with
      | some f =>
        if snaps.all (fun p => !(samePartition p o) || !(beats p o)) then
          some (mkExportRow o f)
        else none
      | none => none
    else none)

/-- `ORDER BY ... line ASC` on a nullable column: SQL sorts NULL first. -/
def optLineLE (a b : Option ℚ) : Bool :=
  match a, b with
  | none, _ => true
  | some _, none => false
  | some x, some y => decide (x ≤ y)

/-- The outer `ORDER BY commence_time_utc, fixture_id, bookmaker, market,
line` of the export query. -/
def exportOrdLE (a b : ExportRow) : Bool :=
  if a.commence_time_utc ≠ b.commence_time_utc then sqlTextLt a.commence_time_utc b.commence_time_utc
  else if a.fixture_id ≠ b.fixture_id then sqlTextLt a.fixture_id b.fixture_id
  else if a.bookmaker ≠ b.bookmaker then sqlTextLt a.bookmaker b.bookmaker
  else if a.market ≠ b.market then sqlTextLt a.market b.market
  else optLineLE a.line b.line

/-- Insert into a sorted list (helper for the `ORDER BY` model). -/
def insertSorted (le : α → α → Bool) (a : α) : List α → List α
  | [] => [a]
  | b :: bs => if le a b then a :: b :: bs else b :: insertSorted le a bs

/-- Insertion sort, modelling the SQL `ORDER BY` clause. -/
def sortBy (le : α → α → Bool) (l : List α) : List α :=
  l.foldr (insertSorted le) []

/-- One element of `payload["items"]` (src/export.py:84-101): equal to the
query row except that a btts line is exported as `null`. -/
def mkItem (r : ExportRow) : ExportRow :=
  { r with line := if r.market = "btts" then none else r.line }

/-- The `items` list produced by `export_odds_json`: the latest-per-key
rows, ordered, capped at `limit`, each mapped through the btts line
rewrite. -/
def export_odds_json (snaps : List SnapRow) (fixtures : List Fixture)
    (limit : Nat) : List ExportRow :=
  (((sortBy exportOrdLE (latest_rows snaps fixtures)).take limit).map mkItem)

/-! ### De-vig utility (`devig_two_way`, src/utils.py:11) -/

/-- `devig_two_way`: the Python function always returns the tuple (its
`Optional` annotation notwithstanding); prices are modelled in exact
arithmetic. -/
def devig_two_way (decimal_over decimal_under : ℚ) : ℚ × ℚ :=
  let q_over := 1 / decimal_over
  let q_under := 1 / decimal_under
  let r := q_over + q_under
  (q_over / r, q_under / r)

/-! ### Generic fold helpers -/

theorem mem_foldl_append {α β : Type _} (f : β → List α) (l : List β) (init : List α) (x : α)
    (h : x ∈ l.foldl (fun rs b => rs ++ f b) init) : x ∈ init ∨ ∃ b ∈ l, x ∈ f b := by
  induction l generalizing init with
  | nil => exact Or.inl h
  | cons b t ih =>
    rcases ih (init ++ f b) h with h1 | ⟨b2, hb2, hx⟩
    · rcases List.mem_append.mp h1 with h2 | h2
      · exact Or.inl h2
      · exact Or.inr ⟨b, List.mem_cons_self b t, h2⟩
    · exact Or.inr ⟨b2, List.mem_cons_of_mem b hb2, hx⟩

theorem mem_btts_market_fold (captured fid bt : String) (mks : List MarketObj)
    (init : List InsRow) (x : InsRow)
    (h : x ∈ mks.foldl (fun rs2 mk =>
      if mk.key = some "btts" then rs2 ++ store_btts_rows captured fid bt mk.outcomes
      else rs2) init) :
    x ∈ init ∨ ∃ mk ∈ mks, x ∈ store_btts_rows captured fid bt mk.outcomes := by
  induction mks generalizing init with
  | nil => exact Or.inl h
  | cons mk t ih =>
    by_cases hk : mk.key = some "btts"
    · simp only [List.foldl_cons, if_pos hk] at h
      rcases ih _ h with h1 | ⟨m2, hm2, hx⟩
      · rcases List.mem_append.mp h1 with h2 | h2
        · exact Or.inl h2
        · exact Or.inr ⟨mk, List.mem_cons_self mk t, h2⟩
      · exact Or.inr ⟨m2, List.mem_cons_of_mem mk hm2, hx⟩
    · simp only [List.foldl_cons, if_neg hk] at h
      rcases ih _ h with h1 | ⟨m2, hm2, hx⟩
      · exact Or.inl h1
      · exact Or.inr ⟨m2, List.mem_cons_of_mem mk hm2, hx⟩

theorem store_btts_rows_line (captured fid bt : String) (outs : List Outcome)
    (x : InsRow) (h : x ∈ store_btts_rows captured fid bt outs) : x.line = some 0 := by
  unfold store_btts_rows at h
  split at h
  · rcases List.mem_singleton.mp h with rfl
    rfl
  · cases h

/-! ### Claim C1 -/

/-- C1 (counterexample): the claim "every btts row written to the snapshot
store has line NULL" is false.  On a concrete btts payload with a Yes
price and a No price, the extractor emits a row whose line is the numeric
placeholder `0.0`, not NULL. -/
theorem C1_counterexample :
    ¬ (∀ r ∈ store_btts_snapshot_rows "2026-01-19T09:00:00Z" "42"
        [⟨some "bet1", some "Bet1",
          [⟨some "btts", [⟨some "Yes", some 2, none⟩, ⟨some "No", some 3, none⟩]⟩]⟩],
        r.line = none) := by decide

/-- C1 (amended): every btts row produced by the extractor and handed to
the snapshot store carries `line = 0.0` — a numeric placeholder, never
NULL (the schema declares the column NOT NULL); btts lines are rewritten
to null only in the exported document. -/
theorem C1_amended_btts_line_zero (captured fid : String) (bms : List BookmakerObj) :
    ∀ r ∈ store_btts_snapshot_rows captured fid bms, r.line = some 0 := by
  intro r hr
  unfold store_btts_snapshot_rows at hr
  rcases mem_foldl_append _ bms [] r hr with h | ⟨bm, _, hx⟩
  · cases h
  rcases mem_btts_market_fold captured fid (bmDisplay bm) bm.markets [] r hx with h | ⟨mk, _, hx2⟩
  · cases h
  exact store_btts_rows_line captured fid (bmDisplay bm) mk.outcomes r hx2

/-- C1 (witness for the amended theorem): the concrete btts row produced
from the payload above indeed has line `0.0`. -/
theorem C1_witness :
    InsRow.line ⟨"2026-01-19T09:00:00Z", "42", "Bet1", "btts", some 0, some 2, some 3⟩ = some 0 :=
  C1_amended_btts_line_zero "2026-01-19T09:00:00Z" "42"
    [⟨some "bet1", some "Bet1",
      [⟨some "btts", [⟨some "Yes", some 2, none⟩, ⟨some "No", some 3, none⟩]⟩]⟩]
    ⟨"2026-01-19T09:00:00Z", "42", "Bet1", "btts", some 0, some 2, some 3⟩ (by decide)

/-! ### Claim C2 -/

/-- C2 (counterexample): the claim that matching "Arsenal" / "Chelsea"
against a stored fixture "Arsenal FC" / "Chelsea FC" at the same instant
returns that fixture's id is false: `_norm` performs no club-suffix
removal (it is only strip + lowercase) and the SQL comparison is exact
equality, so the lookup returns no match. -/
theorem C2_counterexample :
    _fixture_id_for_event
      [⟨"42", "2026-01-19T15:00:00Z", some 22, "SCHEDULED", "Arsenal FC", "Chelsea FC",
        none, none, none⟩]
      "2026-01-19T15:00:00Z" "Arsenal" "Chelsea" = none := by decide

/-- C2 (amended): the matcher resolves an event only by exact equality
after lower-casing (and stripping, on the event side): whenever it
returns a fixture id, the store contains a fixture with that id whose
commence time equals the event's verbatim and whose lower-cased team
names equal the normalized event names — no suffix tokens are removed
and no time window is applied. -/
theorem C2_amended_exact_match {fixtures : List Fixture} {commence home away fid : String}
    (h : _fixture_id_for_event fixtures commence home away = some fid) :
    ∃ f ∈ fixtures, f.fixture_id = fid ∧ f.commence_time_utc = commence ∧
      sqlLower f.home_team = _norm (some home) ∧ sqlLower f.away_team = _norm (some away) := by
  unfold _fixture_id_for_event at h
  rcases Option.map_eq_some'.mp h with ⟨f, hfind, hfid⟩
  refine ⟨f, List.mem_of_find?_eq_some hfind, hfid, ?_⟩
  have := List.find?_some hfind
  exact of_decide_eq_true this

/-- C2 (witness): with the event names spelled exactly as stored
("Arsenal FC" / "Chelsea FC"), the lookup succeeds and the amended
theorem recovers the matching fixture. -/
theorem C2_witness :
    ∃ f ∈ [(⟨"42", "2026-01-19T15:00:00Z", some 22, "SCHEDULED", "Arsenal FC", "Chelsea FC",
        none, none, none⟩ : Fixture)],
      f.fixture_id = "42" ∧ f.commence_time_utc = "2026-01-19T15:00:00Z" ∧
      sqlLower f.home_team = _norm (some "Arsenal FC") ∧
      sqlLower f.away_team = _norm (some "Chelsea FC") :=
  C2_amended_exact_match (by decide)

/-! ### Claim C3 -/

/-- C3 (counterexample): snapshot writes are not idempotent under an
exact duplicate key.  Writing a second row with the identical
`(captured_at_utc, fixture_id, bookmaker, market, line)` key (and a
different price) leaves two physical rows for that key — the schema has
no UNIQUE constraint on the key and `_store_rows` is a plain INSERT. -/
theorem C3_counterexample :
    ((_store_rows
        (_store_rows [] [⟨"2026-01-19T09:00:00Z", "42", "Bet1", "totals", some 2, some 2, some 2⟩])
        [⟨"2026-01-19T09:00:00Z", "42", "Bet1", "totals", some 2, some 3, some 3⟩]).countP
      (fun r => decide (fullKey r = ("2026-01-19T09:00:00Z", "42", "Bet1", "totals", some 2)))) = 2 := by
  decide

/-- C3 (amended): appending a row always inserts a fresh physical row —
the count of rows carrying the appended row's full key grows by exactly
one, whatever the prior state; duplicates are neither rejected nor
overwritten.  (Per-key collapsing happens only on the `latest()` read
path, see C5.) -/
theorem C3_amended_append_always_inserts (store : List SnapRow) (r : InsRow) :
    (_store_rows store [r]).countP
      (fun s => decide (fullKey s = (r.captured_at_utc, r.fixture_id, r.bookmaker, r.market, r.line))) =
    store.countP
      (fun s => decide (fullKey s = (r.captured_at_utc, r.fixture_id, r.bookmaker, r.market, r.line))) + 1 := by
  unfold _store_rows
  rw [List.countP_append]
  simp [List.enum, mkSnap, fullKey]

/-! ### Claim C7 -/

/-- C7 (counterexample): the claim "an unparsable event timestamp makes
the matcher return None" is false: the code never parses timestamps, it
compares them as raw strings, so an event whose timestamp is the
unparsable string "not-a-timestamp" still matches a stored fixture
carrying that exact string. -/
theorem C7_counterexample :
    _fixture_id_for_event
      [⟨"9", "not-a-timestamp", none, "SCHEDULED", "x", "y", none, none, none⟩]
      "not-a-timestamp" "x" "y" = some "9" := by decide

/-- C7 (amended): the matcher is a total function (it never raises), and
whenever the store holds zero candidates — no fixture agreeing with the
event's verbatim timestamp string and normalized names, in particular
for an empty store — it returns None.  Unparsable timestamps and empty
names yield "no match" only through this clause, since no parsing or
validation is performed. -/
theorem C7_amended_no_candidate_none (fixtures : List Fixture) (commence home away : String)
    (h : ∀ f ∈ fixtures, ¬ (f.commence_time_utc = commence ∧
        sqlLower f.home_team = _norm (some home) ∧ sqlLower f.away_team = _norm (some away))) :
    _fixture_id_for_event fixtures commence home away = none := by
  unfold _fixture_id_for_event
  have hfind : fixtures.find? (fun f =>
      decide (f.commence_time_utc = commence ∧
        sqlLower f.home_team = _norm (some home) ∧
        sqlLower f.away_team = _norm (some away))) = none := by
    rw [List.find?_eq_none]
    intro f hf
    simp only [decide_eq_true_eq]
    exact h f hf
  rw [hfind]
  rfl

/-- C7 (witness): the empty candidate set returns None. -/
theorem C7_witness : _fixture_id_for_event [] "garbage" "" "" = none :=
  C7_amended_no_candidate_none [] "garbage" "" "" (by simp)

/-! ### Claim C8 -/

/-- C8: the name normalizer `_norm` is a pure, total, idempotent
function: `_norm (_norm x) = _norm x` for every input, and a null
input is treated as the empty string (no exception is possible — the
function is total by construction). -/
theorem C8_norm_idempotent :
    (∀ x : Option String, _norm (some (_norm x)) = _norm x) ∧ _norm none = "" := by
  constructor
  · intro x
    cases x with
    | none => exact norm_idem ""
    | some s => exact norm_idem s
  · rfl

/-! ### Claim C9 -/

/-- C9: for strictly positive decimal odds, `devig_two_way` returns
implied probabilities that sum exactly to 1 (exact rational arithmetic),
each strictly between 0 and 1. -/
theorem C9_devig_two_way_probabilities (o u : ℚ) (ho : 0 < o) (hu : 0 < u) :
    (devig_two_way o u).1 + (devig_two_way o u).2 = 1 ∧
    0 < (devig_two_way o u).1 ∧ (devig_two_way o u).1 < 1 ∧
    0 < (devig_two_way o u).2 ∧ (devig_two_way o u).2 < 1 := by
  have hqo : (0:ℚ) < 1 / o := by positivity
  have hqu : (0:ℚ) < 1 / u := by positivity
  have hr : (0:ℚ) < 1 / o + 1 / u := by linarith
  unfold devig_two_way
  simp only
  refine ⟨?_, ?_, ?_, ?_, ?_⟩
  · field_simp
  · positivity
  · rw [div_lt_one hr]
    linarith
  · positivity
  · rw [div_lt_one hr]
    linarith

/-- C9 (witness): the theorem instantiated at fair odds 2.0 / 2.0. -/
theorem C9_witness :
    (devig_two_way 2 2).1 + (devig_two_way 2 2).2 = 1 ∧
    0 < (devig_two_way 2 2).1 ∧ (devig_two_way 2 2).1 < 1 ∧
    0 < (devig_two_way 2 2).2 ∧ (devig_two_way 2 2).2 < 1 :=
  C9_devig_two_way_probabilities 2 2 (by decide) (by decide)

/-! ### Association-list lemmas for the `by_line` dicts -/

/-- Lookup in a `by_line` assoc list (Python `by_line[l]`). -/
def lookupLine {S : Type} : List (ℚ × S) → ℚ → Option S
  | [], _ => none
  | (k, v) :: rest, l => if k = l then some v else lookupLine rest l

theorem lookupLine_dictUpd {S : Type} (emp : S) (f : S → S) (m : List (ℚ × S)) (ln l : ℚ) :
    lookupLine (dictUpd emp f m ln) l =
      if l = ln then some (f ((lookupLine m ln).getD emp)) else lookupLine m l := by
  induction m with
  | nil =>
    by_cases h : l = ln
    · subst h
      simp [dictUpd, lookupLine]
    · simp [dictUpd, lookupLine, h, Ne.symm h]
  | cons kv rest ih =>
    obtain ⟨k, v⟩ := kv
    by_cases hk : k = ln
    · subst hk
      by_cases h : l = k
      · subst h
        simp [dictUpd, lookupLine]
      · simp [dictUpd, lookupLine, h, Ne.symm h]
    · by_cases h : l = k
      · subst h
        simp [dictUpd, lookupLine, hk]
      · simp [dictUpd, lookupLine, hk, h, Ne.symm h, ih]

theorem lookupLine_eq_none {S : Type} (m : List (ℚ × S)) (l : ℚ)
    (h : l ∉ m.map Prod.fst) : lookupLine m l = none := by
  induction m with
  | nil => rfl
  | cons kv rest ih =>
    obtain ⟨k, v⟩ := kv
    simp only [List.map_cons, List.mem_cons] at h
    push_neg at h
    simp only [lookupLine, if_neg (fun hh => h.1 (Eq.symm hh))]
    exact ih h.2

theorem keys_dictUpd {S : Type} (emp : S) (f : S → S) (m : List (ℚ × S)) (ln : ℚ) :
    (dictUpd emp f m ln).map Prod.fst =
      if ln ∈ m.map Prod.fst then m.map Prod.fst else m.map Prod.fst ++ [ln] := by
  induction m with
  | nil => simp [dictUpd]
  | cons kv rest ih =>
    obtain ⟨k, v⟩ := kv
    by_cases hk : k = ln
    · subst hk
      simp [dictUpd]
    · simp only [dictUpd, if_neg hk, List.map_cons, ih]
      by_cases hmem : ln ∈ rest.map Prod.fst
      · rw [if_pos hmem, if_pos (List.mem_cons_of_mem k hmem)]
      · rw [if_neg hmem, if_neg ?hnc]
        · simp
        case hnc =>
          intro hc
          rcases List.mem_cons.mp hc with hc | hc
          · exact hk (Eq.symm hc)
          · exact hmem hc

theorem nodupKeys_dictUpd {S : Type} (emp : S) (f : S → S) (m : List (ℚ × S)) (ln : ℚ)
    (h : (m.map Prod.fst).Nodup) : ((dictUpd emp f m ln).map Prod.fst).Nodup := by
  rw [keys_dictUpd]
  by_cases hmem : ln ∈ m.map Prod.fst
  · rw [if_pos hmem]
    exact h
  · rw [if_neg hmem]
    simp [List.nodup_append, h, hmem]

/-! ### Side-presence invariants for the extraction folds -/

/-- The first slot at line `l` holds a price (`"over" in ou` / `"home" in vals`). -/
def hasA (m : List (ℚ × Sides)) (l : ℚ) : Bool :=
  match lookupLine m l with
  | some s => s.a.isSome
  | none => false

/-- The second slot at line `l` holds a price (`"under"` / `"away"`). -/
def hasB (m : List (ℚ × Sides)) (l : ℚ) : Bool :=
  match lookupLine m l with
  | some s => s.b.isSome
  | none => false

theorem hasA_dictUpd_setA (m : List (ℚ × Sides)) (ln l : ℚ) (pr : ℚ) :
    hasA (dictUpd ⟨none, none⟩ (setA pr) m ln) l = (decide (l = ln) || hasA m l) := by
  unfold hasA
  rw [lookupLine_dictUpd]
  by_cases h : l = ln
  · rw [if_pos h]
    simp [setA, h]
  · rw [if_neg h]
    simp [h]

theorem hasB_dictUpd_setA (m : List (ℚ × Sides)) (ln l : ℚ) (pr : ℚ) :
    hasB (dictUpd ⟨none, none⟩ (setA pr) m ln) l = hasB m l := by
  unfold hasB
  rw [lookupLine_dictUpd]
  by_cases h : l = ln
  · rw [if_pos h]
    subst h
    cases hm : lookupLine m l with
    | none => simp [hm, setA]
    | some s => simp [hm, setA]
  · rw [if_neg h]

theorem hasB_dictUpd_setB (m : List (ℚ × Sides)) (ln l : ℚ) (pr : ℚ) :
    hasB (dictUpd ⟨none, none⟩ (setB pr) m ln) l = (decide (l = ln) || hasB m l) := by
  unfold hasB
  rw [lookupLine_dictUpd]
  by_cases h : l = ln
  · rw [if_pos h]
    simp [setB, h]
  · rw [if_neg h]
    simp [h]

theorem hasA_dictUpd_setB (m : List (ℚ × Sides)) (ln l : ℚ) (pr : ℚ) :
    hasA (dictUpd ⟨none, none⟩ (setB pr) m ln) l = hasA m l := by
  unfold hasA
  rw [lookupLine_dictUpd]
  by_cases h : l = ln
  · rw [if_pos h]
    subst h
    cases hm : lookupLine m l with
    | none => simp [hm, setB]
    | some s => simp [hm, setB]
  · rw [if_neg h]

/-- An outcome the totals branch records as an Over at line `l`:
point parses to `l`, a price parses, and the name normalizes to "over". -/
def overAt (l : ℚ) (o : Outcome) : Bool :=
  decide (o.point = some l) && o.price.isSome && decide (_norm o.name = "over")

/-- An outcome the totals branch records as an Under at line `l`. -/
def underAt (l : ℚ) (o : Outcome) : Bool :=
  decide (o.point = some l) && o.price.isSome && decide (_norm o.name = "under")

theorem totalsStep_hasA (m : List (ℚ × Sides)) (o : Outcome) (l : ℚ) :
    hasA (totalsStep m o) l = (hasA m l || overAt l o) := by
  cases hp : o.point with
  | none => simp [totalsStep, overAt, hp]
  | some ln =>
    cases hpr : o.price with
    | none => simp [totalsStep, overAt, hp, hpr]
    | some pr =>
      by_cases hov : _norm o.name = "over"
      · simp [totalsStep, overAt, hp, hpr, hov, hasA_dictUpd_setA, eq_comm, Bool.or_comm]
      · by_cases hun : _norm o.name = "under"
        · simp [totalsStep, overAt, hp, hpr, hov, hun, hasA_dictUpd_setB]
        · simp [totalsStep, overAt, hp, hpr, hov, hun]

theorem totalsStep_hasB (m : List (ℚ × Sides)) (o : Outcome) (l : ℚ) :
    hasB (totalsStep m o) l = (hasB m l || underAt l o) := by
  cases hp : o.point with
  | none => simp [totalsStep, underAt, hp]
  | some ln =>
    cases hpr : o.price with
    | none => simp [totalsStep, underAt, hp, hpr]
    | some pr =>
      by_cases hov : _norm o.name = "over"
      · have hun : ¬ _norm o.name = "under" := by
          rw [hov]
          decide
        simp [totalsStep, underAt, hp, hpr, hov, hun, hasB_dictUpd_setA]
      · by_cases hun : _norm o.name = "under"
        · simp [totalsStep, underAt, hp, hpr, hov, hun, hasB_dictUpd_setB, eq_comm, Bool.or_comm]
        · simp [totalsStep, underAt, hp, hpr, hov, hun]

theorem totals_fold_hasA (outs : List Outcome) (m : List (ℚ × Sides)) (l : ℚ) :
    hasA (outs.foldl totalsStep m) l = (hasA m l || outs.any (overAt l)) := by
  induction outs generalizing m with
  | nil => simp
  | cons o t ih =>
    rw [List.foldl_cons, ih, List.any_cons, totalsStep_hasA, Bool.or_assoc]

theorem totals_fold_hasB (outs : List Outcome) (m : List (ℚ × Sides)) (l : ℚ) :
    hasB (outs.foldl totalsStep m) l = (hasB m l || outs.any (underAt l)) := by
  induction outs generalizing m with
  | nil => simp
  | cons o t ih =>
    rw [List.foldl_cons, ih, List.any_cons, totalsStep_hasB, Bool.or_assoc]

theorem nodupKeys_totals_fold (outs : List Outcome) (m : List (ℚ × Sides))
    (h : (m.map Prod.fst).Nodup) : ((outs.foldl totalsStep m).map Prod.fst).Nodup := by
  induction outs generalizing m with
  | nil => exact h
  | cons o t ih =>
    rw [List.foldl_cons]
    apply ih
    cases hp : o.point with
    | none => simpa [totalsStep, hp] using h
    | some ln =>
      cases hpr : o.price with
      | none => simpa [totalsStep, hp, hpr] using h
      | some pr =>
        by_cases hov : _norm o.name = "over"
        · simp only [totalsStep, hp, hpr, hov, if_pos]
          exact nodupKeys_dictUpd _ _ m ln h
        · by_cases hun : _norm o.name = "under"
          · have : totalsStep m o = dictUpd ⟨none, none⟩ (setB pr) m ln := by
              simp [totalsStep, hp, hpr, hov, hun]
            rw [this]
            exact nodupKeys_dictUpd _ _ m ln h
          · simpa [totalsStep, hp, hpr, hov, hun] using h

/-- Counting rows of a given line among the rows built from a `by_line`
dict: with unique keys, the single entry at that line contributes one
row when both sides are present and none otherwise. -/
theorem countP_filterMap_byline (bl : List (ℚ × Sides)) (mk : ℚ → ℚ → ℚ → InsRow)
    (hmk : ∀ k x y, (mk k x y).line = some k)
    (hnd : (bl.map Prod.fst).Nodup) (l : ℚ) :
    (bl.filterMap (fun kv =>
      match kv.2.a, kv.2.b with
      | some x, some y => some (mk kv.1 x y)
      | _, _ => none)).countP (fun r => decide (r.line = some l)) =
    (match lookupLine bl l with
     | some s => if s.a.isSome && s.b.isSome then 1 else 0
     | none => 0) := by
  induction bl with
  | nil => rfl
  | cons kv rest ih =>
    obtain ⟨k, s⟩ := kv
    have hknd : k ∉ rest.map Prod.fst := by
      simp only [List.map_cons, List.nodup_cons] at hnd
      exact hnd.1
    have hrest := ih (by simpa using hnd.of_cons)
    by_cases hkl : k = l
    · subst hkl
      have hrest0 : lookupLine rest k = none := lookupLine_eq_none rest k hknd
      rw [hrest0] at hrest
      cases ha : s.a with
      | none =>
        simp only [List.filterMap_cons, ha]
        rw [hrest]
        simp [lookupLine, ha]
      | some x =>
        cases hb : s.b with
        | none =>
          simp only [List.filterMap_cons, ha, hb]
          rw [hrest]
          simp [lookupLine, ha, hb]
        | some y =>
          simp only [List.filterMap_cons, ha, hb]
          rw [List.countP_cons, hrest]
          simp [lookupLine, ha, hb, hmk]
    · cases ha : s.a with
      | none =>
        simp only [List.filterMap_cons, ha]
        rw [hrest]
        simp [lookupLine, hkl]
      | some x =>
        cases hb : s.b with
        | none =>
          simp only [List.filterMap_cons, ha, hb]
          rw [hrest]
          simp [lookupLine, hkl]
        | some y =>
          simp only [List.filterMap_cons, ha, hb]
          rw [List.countP_cons, hrest]
          simp [lookupLine, hkl, hmk]

/-! ### Claim C6 -/

/-- C6 (counterexample): the claim covers markets keyed
`alternate_totals` as well, but the extractor's dispatch handles only
`"totals"` and `"spreads"` — an `alternate_totals` market with a full
two-sided line produces zero rows, where the claim demands exactly
one. -/
theorem C6_counterexample :
    rows_for_market "2026-01-19T09:00:00Z" "42" "Bet1" "HomeTeam" "AwayTeam"
      ⟨some "alternate_totals", [⟨some "Over", some 2, some 3⟩, ⟨some "Under", some 2, some 3⟩]⟩
      = [] := by decide

/-- C6 (amended): for a market keyed `"totals"`, the extractor emits
exactly one row per distinct line at which both an Over and an Under
outcome (with parsed prices, names compared case-insensitively via
`_norm`) are present, and zero rows for a line where only one side is
present; distinct lines give independent rows (the count at each line
depends only on that line's outcomes).  A market keyed
`"alternate_totals"` is ignored entirely and yields no rows. -/
theorem C6_amended_totals_one_row_per_two_sided_line (captured fid bm home away : String)
    (outs : List Outcome) (l : ℚ) :
    ((store_totals_rows captured fid bm outs).countP (fun r => decide (r.line = some l)) =
      if (∃ o ∈ outs, overAt l o) ∧ (∃ o ∈ outs, underAt l o) then 1 else 0) ∧
    rows_for_market captured fid bm home away ⟨some "alternate_totals", outs⟩ = [] := by
  refine ⟨?_, by simp [rows_for_market]⟩
  have hnd : ((totals_by_line outs).map Prod.fst).Nodup :=
    nodupKeys_totals_fold outs [] (by simp)
  have hcnt := countP_filterMap_byline (totals_by_line outs)
    (fun k x y => ⟨captured, fid, bm, "totals", some k, some x, some y⟩)
    (fun k x y => rfl) hnd l
  have hA : hasA (totals_by_line outs) l = outs.any (overAt l) := by
    rw [totals_by_line, totals_fold_hasA]
    simp [hasA, lookupLine]
  have hB : hasB (totals_by_line outs) l = outs.any (underAt l) := by
    rw [totals_by_line, totals_fold_hasB]
    simp [hasB, lookupLine]
  unfold store_totals_rows
  refine Eq.trans hcnt ?_
  by_cases hex : (∃ o ∈ outs, overAt l o) ∧ (∃ o ∈ outs, underAt l o)
  · rw [if_pos hex]
    have hAtrue : outs.any (overAt l) = true := List.any_eq_true.mpr hex.1
    have hBtrue : outs.any (underAt l) = true := List.any_eq_true.mpr hex.2
    rw [hAtrue] at hA
    rw [hBtrue] at hB
    cases hlk : lookupLine (totals_by_line outs) l with
    | none =>
      rw [hasA, hlk] at hA
      simp at hA
    | some s =>
      rw [hasA, hlk] at hA
      rw [hasB, hlk] at hB
      simp only at hA hB
      simp [hA, hB]
  · rw [if_neg hex]
    have hor : outs.any (overAt l) = false ∨ outs.any (underAt l) = false := by
      by_contra hc
      push_neg at hc
      rw [Bool.ne_false_iff, List.any_eq_true] at hc
      rcases hc with ⟨h1, h2⟩
      rw [Bool.ne_false_iff, List.any_eq_true] at h2
      exact hex ⟨h1, h2⟩
    cases hlk : lookupLine (totals_by_line outs) l with
    | none => rfl
    | some s =>
      rw [hasA, hlk] at hA
      rw [hasB, hlk] at hB
      simp only at hA hB
      rcases hor with hfa | hfa
      · rw [hfa] at hA
        simp [hA]
      · rw [hfa] at hB
        simp [hB]

/-! ### Claim C4 -/

/-- An outcome the spreads branch records on the home side at line `l`:
point parses to `l`, name and price are present, and the normalized name
equals the normalized home-team name. -/
def spreadHomeAt (home : String) (l : ℚ) (o : Outcome) : Bool :=
  decide (o.point = some l) && o.name.isSome && o.price.isSome &&
    decide (_norm o.name = _norm (some home))

/-- An outcome the spreads branch records on the away side at line `l`
(the home comparison is checked first — `elif` — so a name matching the
home side is excluded). -/
def spreadAwayAt (home away : String) (l : ℚ) (o : Outcome) : Bool :=
  decide (o.point = some l) && o.name.isSome && o.price.isSome &&
    !(decide (_norm o.name = _norm (some home))) &&
    decide (_norm o.name = _norm (some away))

theorem spreadsStep_hasA (home away : String) (m : List (ℚ × Sides)) (o : Outcome) (l : ℚ) :
    hasA (spreadsStep home away m o) l = (hasA m l || spreadHomeAt home l o) := by
  cases hp : o.point with
  | none => simp [spreadsStep, spreadHomeAt, hp]
  | some ln =>
    cases hn : o.name with
    | none => simp [spreadsStep, spreadHomeAt, hp, hn]
    | some nm =>
      cases hpr : o.price with
      | none => simp [spreadsStep, spreadHomeAt, hp, hn, hpr]
      | some pr =>
        by_cases hh : _norm (some nm) = _norm (some home)
        · simp [spreadsStep, spreadHomeAt, hp, hn, hpr, hh, hasA_dictUpd_setA,
            eq_comm, Bool.or_comm]
        · by_cases ha : _norm (some nm) = _norm (some away)
          · have hh2 : ¬ _norm (some away) = _norm (some home) := fun hc => hh (ha.trans hc)
            simp [spreadsStep, spreadHomeAt, hp, hn, hpr, hh, ha, hh2, hasA_dictUpd_setB]
          · simp [spreadsStep, spreadHomeAt, hp, hn, hpr, hh, ha]

theorem spreadsStep_hasB (home away : String) (m : List (ℚ × Sides)) (o : Outcome) (l : ℚ) :
    hasB (spreadsStep home away m o) l = (hasB m l || spreadAwayAt home away l o) := by
  cases hp : o.point with
  | none => simp [spreadsStep, spreadAwayAt, hp]
  | some ln =>
    cases hn : o.name with
    | none => simp [spreadsStep, spreadAwayAt, hp, hn]
    | some nm =>
      cases hpr : o.price with
      | none => simp [spreadsStep, spreadAwayAt, hp, hn, hpr]
      | some pr =>
        by_cases hh : _norm (some nm) = _norm (some home)
        · simp [spreadsStep, spreadAwayAt, hp, hn, hpr, hh, hasB_dictUpd_setA]
        · by_cases ha : _norm (some nm) = _norm (some away)
          · have hh2 : ¬ _norm (some away) = _norm (some home) := fun hc => hh (ha.trans hc)
            have hh3 : ¬ _norm (some home) = _norm (some away) := fun hc => hh2 hc.symm
            simp [spreadsStep, spreadAwayAt, hp, hn, hpr, hh, ha, hh2, hh3, hasB_dictUpd_setB,
              eq_comm, Bool.or_comm]
          · simp [spreadsStep, spreadAwayAt, hp, hn, hpr, hh, ha]

theorem spreads_fold_hasA (home away : String) (outs : List Outcome)
    (m : List (ℚ × Sides)) (l : ℚ) :
    hasA (outs.foldl (spreadsStep home away) m) l =
      (hasA m l || outs.any (spreadHomeAt home l)) := by
  induction outs generalizing m with
  | nil => simp
  | cons o t ih =>
    rw [List.foldl_cons, ih, List.any_cons, spreadsStep_hasA, Bool.or_assoc]

theorem spreads_fold_hasB (home away : String) (outs : List Outcome)
    (m : List (ℚ × Sides)) (l : ℚ) :
    hasB (outs.foldl (spreadsStep home away) m) l =
      (hasB m l || outs.any (spreadAwayAt home away l)) := by
  induction outs generalizing m with
  | nil => simp
  | cons o t ih =>
    rw [List.foldl_cons, ih, List.any_cons, spreadsStep_hasB, Bool.or_assoc]

theorem nodupKeys_spreads_fold (home away : String) (outs : List Outcome)
    (m : List (ℚ × Sides)) (h : (m.map Prod.fst).Nodup) :
    ((outs.foldl (spreadsStep home away) m).map Prod.fst).Nodup := by
  induction outs generalizing m with
  | nil => exact h
  | cons o t ih =>
    rw [List.foldl_cons]
    apply ih
    cases hp : o.point with
    | none => simpa [spreadsStep, hp] using h
    | some ln =>
      cases hn : o.name with
      | none => simpa [spreadsStep, hp, hn] using h
      | some nm =>
        cases hpr : o.price with
        | none => simpa [spreadsStep, hp, hn, hpr] using h
        | some pr =>
          by_cases hh : _norm (some nm) = _norm (some home)
          · have : spreadsStep home away m o = dictUpd ⟨none, none⟩ (setA pr) m ln := by
              simp [spreadsStep, hp, hn, hpr, hh]
            rw [this]
            exact nodupKeys_dictUpd _ _ m ln h
          · by_cases ha : _norm (some nm) = _norm (some away)
            · have hh2 : ¬ _norm (some away) = _norm (some home) := fun hc => hh (ha.trans hc)
              have : spreadsStep home away m o = dictUpd ⟨none, none⟩ (setB pr) m ln := by
                simp [spreadsStep, hp, hn, hpr, hh, ha, hh2]
              rw [this]
              exact nodupKeys_dictUpd _ _ m ln h
            · simpa [spreadsStep, hp, hn, hpr, hh, ha] using h

/-- The price currently held in the first slot at line `l`
(`by_line[l]["over"]` / `["home"]`), if any. -/
def slotA (m : List (ℚ × Sides)) (l : ℚ) : Option ℚ :=
  match lookupLine m l with
  | some s => s.a
  | none => none

/-- The price currently held in the second slot at line `l`
(`by_line[l]["under"]` / `["away"]`), if any. -/
def slotB (m : List (ℚ × Sides)) (l : ℚ) : Option ℚ :=
  match lookupLine m l with
  | some s => s.b
  | none => none

theorem slotA_dictUpd_setA (m : List (ℚ × Sides)) (ln l : ℚ) (pr : ℚ) :
    slotA (dictUpd ⟨none, none⟩ (setA pr) m ln) l =
      if l = ln then some pr else slotA m l := by
  unfold slotA
  rw [lookupLine_dictUpd]
  by_cases h : l = ln
  · rw [if_pos h, if_pos h]
    simp [setA]
  · rw [if_neg h, if_neg h]

theorem slotA_dictUpd_setB (m : List (ℚ × Sides)) (ln l : ℚ) (pr : ℚ) :
    slotA (dictUpd ⟨none, none⟩ (setB pr) m ln) l = slotA m l := by
  unfold slotA
  rw [lookupLine_dictUpd]
  by_cases h : l = ln
  · rw [if_pos h]
    subst h
    cases hm : lookupLine m l with
    | none => simp [hm, setB]
    | some s => simp [hm, setB]
  · rw [if_neg h]

theorem slotB_dictUpd_setB (m : List (ℚ × Sides)) (ln l : ℚ) (pr : ℚ) :
    slotB (dictUpd ⟨none, none⟩ (setB pr) m ln) l =
      if l = ln then some pr else slotB m l := by
  unfold slotB
  rw [lookupLine_dictUpd]
  by_cases h : l = ln
  · rw [if_pos h, if_pos h]
    simp [setB]
  · rw [if_neg h, if_neg h]

theorem slotB_dictUpd_setA (m : List (ℚ × Sides)) (ln l : ℚ) (pr : ℚ) :
    slotB (dictUpd ⟨none, none⟩ (setA pr) m ln) l = slotB m l := by
  unfold slotB
  rw [lookupLine_dictUpd]
  by_cases h : l = ln
  · rw [if_pos h]
    subst h
    cases hm : lookupLine m l with
    | none => simp [hm, setA]
    | some s => simp [hm, setA]
  · rw [if_neg h]

/-- Any price found in the home slot after one spreads step either was
there before or is the price of the step's outcome, which then is a
home-named outcome at that line. -/
theorem spreadsStep_slotA (home away : String) (m : List (ℚ × Sides)) (o : Outcome)
    (l pr : ℚ) (h : slotA (spreadsStep home away m o) l = some pr) :
    slotA m l = some pr ∨ (spreadHomeAt home l o = true ∧ o.price = some pr) := by
  cases hp : o.point with
  | none =>
    left
    simpa [spreadsStep, hp] using h
  | some ln =>
    cases hn : o.name with
    | none =>
      left
      simpa [spreadsStep, hp, hn] using h
    | some nm =>
      cases hpr : o.price with
      | none =>
        left
        simpa [spreadsStep, hp, hn, hpr] using h
      | some pr0 =>
        by_cases hh : _norm (some nm) = _norm (some home)
        · have h2 : slotA (dictUpd ⟨none, none⟩ (setA pr0) m ln) l = some pr := by
            simpa [spreadsStep, hp, hn, hpr, hh] using h
          rw [slotA_dictUpd_setA] at h2
          by_cases hl : l = ln
          · rw [if_pos hl] at h2
            right
            constructor
            · simp [spreadHomeAt, hp, hn, hpr, hh, hl]
            · exact h2
          · rw [if_neg hl] at h2
            left
            exact h2
        · by_cases ha2 : _norm (some nm) = _norm (some away)
          · have hh2 : ¬ _norm (some away) = _norm (some home) := fun hc => hh (ha2.trans hc)
            have h2 : slotA (dictUpd ⟨none, none⟩ (setB pr0) m ln) l = some pr := by
              simpa [spreadsStep, hp, hn, hpr, hh, ha2, hh2] using h
            rw [slotA_dictUpd_setB] at h2
            left
            exact h2
          · left
            simpa [spreadsStep, hp, hn, hpr, hh, ha2] using h

/-- Any price found in the away slot after one spreads step either was
there before or is the price of the step's outcome, which then is an
away-named (and not home-named) outcome at that line. -/
theorem spreadsStep_slotB (home away : String) (m : List (ℚ × Sides)) (o : Outcome)
    (l pr : ℚ) (h : slotB (spreadsStep home away m o) l = some pr) :
    slotB m l = some pr ∨ (spreadAwayAt home away l o = true ∧ o.price = some pr) := by
  cases hp : o.point with
  | none =>
    left
    simpa [spreadsStep, hp] using h
  | some ln =>
    cases hn : o.name with
    | none =>
      left
      simpa [spreadsStep, hp, hn] using h
    | some nm =>
      cases hpr : o.price with
      | none =>
        left
        simpa [spreadsStep, hp, hn, hpr] using h
      | some pr0 =>
        by_cases hh : _norm (some nm) = _norm (some home)
        · have h2 : slotB (dictUpd ⟨none, none⟩ (setA pr0) m ln) l = some pr := by
            simpa [spreadsStep, hp, hn, hpr, hh] using h
          rw [slotB_dictUpd_setA] at h2
          left
          exact h2
        · by_cases ha2 : _norm (some nm) = _norm (some away)
          · have hh2 : ¬ _norm (some away) = _norm (some home) := fun hc => hh (ha2.trans hc)
            have h2 : slotB (dictUpd ⟨none, none⟩ (setB pr0) m ln) l = some pr := by
              simpa [spreadsStep, hp, hn, hpr, hh, ha2, hh2] using h
            rw [slotB_dictUpd_setB] at h2
            by_cases hl : l = ln
            · rw [if_pos hl] at h2
              right
              constructor
              · simp [spreadAwayAt, hp, hn, hpr, hh, ha2, hh2, hl]
              · exact h2
            · rw [if_neg hl] at h2
              left
              exact h2
          · left
            simpa [spreadsStep, hp, hn, hpr, hh, ha2] using h

theorem spreads_fold_slotA (home away : String) (outs : List Outcome)
    (m : List (ℚ × Sides)) (l pr : ℚ)
    (h : slotA (outs.foldl (spreadsStep home away) m) l = some pr) :
    slotA m l = some pr ∨ ∃ o ∈ outs, spreadHomeAt home l o = true ∧ o.price = some pr := by
  induction outs generalizing m with
  | nil =>
    left
    exact h
  | cons o t ih =>
    rw [List.foldl_cons] at h
    rcases ih _ h with h2 | ⟨o2, ho2, h3⟩
    · rcases spreadsStep_slotA home away m o l pr h2 with h4 | h4
      · left
        exact h4
      · right
        exact ⟨o, List.mem_cons_self o t, h4⟩
    · right
      exact ⟨o2, List.mem_cons_of_mem o ho2, h3⟩

theorem spreads_fold_slotB (home away : String) (outs : List Outcome)
    (m : List (ℚ × Sides)) (l pr : ℚ)
    (h : slotB (outs.foldl (spreadsStep home away) m) l = some pr) :
    slotB m l = some pr ∨
      ∃ o ∈ outs, spreadAwayAt home away l o = true ∧ o.price = some pr := by
  induction outs generalizing m with
  | nil =>
    left
    exact h
  | cons o t ih =>
    rw [List.foldl_cons] at h
    rcases ih _ h with h2 | ⟨o2, ho2, h3⟩
    · rcases spreadsStep_slotB home away m o l pr h2 with h4 | h4
      · left
        exact h4
      · right
        exact ⟨o, List.mem_cons_self o t, h4⟩
    · right
      exact ⟨o2, List.mem_cons_of_mem o ho2, h3⟩

theorem lookupLine_of_mem_nodup {S : Type} (m : List (ℚ × S)) (k : ℚ) (s : S)
    (hmem : (k, s) ∈ m) (hnd : (m.map Prod.fst).Nodup) : lookupLine m k = some s := by
  induction m with
  | nil => cases hmem
  | cons kv rest ih =>
    obtain ⟨k0, v0⟩ := kv
    rcases List.mem_cons.mp hmem with h | h
    · rw [Prod.mk.injEq] at h
      obtain ⟨h1, h2⟩ := h
      subst h1
      subst h2
      simp [lookupLine]
    · have hk0 : k0 ≠ k := by
        intro hc
        subst hc
        simp only [List.map_cons, List.nodup_cons] at hnd
        exact hnd.1 (List.mem_map.mpr ⟨(k0, s), h, rfl⟩)
      simp only [lookupLine, if_neg hk0]
      exact ih h (by simpa using hnd.of_cons)

/-- C4 (counterexample): the claim that a spreads market quoting both
sides always yields a row with the home side's point as the line is
false.  With the usual feed shape — home at point -2, away at the
negated point +2, both priced — the extractor groups by point value,
finds no point with both sides, and emits zero rows. -/
theorem C4_counterexample :
    store_spreads_rows "2026-01-19T09:00:00Z" "42" "Bet1" "HomeTeam" "AwayTeam"
      [⟨some "HomeTeam", some 2, some (-2)⟩, ⟨some "AwayTeam", some 3, some 2⟩] = [] := by
  decide

/-- The per-line count half of the amended C4 statement, proved from the
slot-presence invariants. -/
theorem C4_count_aux (captured fid bm home away : String)
    (outs : List Outcome) (l : ℚ) :
    (store_spreads_rows captured fid bm home away outs).countP
        (fun r => decide (r.line = some l)) =
      if (∃ o ∈ outs, spreadHomeAt home l o) ∧ (∃ o ∈ outs, spreadAwayAt home away l o)
      then 1 else 0 := by
  have hnd : ((spreads_by_line home away outs).map Prod.fst).Nodup :=
    nodupKeys_spreads_fold home away outs [] (by simp)
  have hcnt := countP_filterMap_byline (spreads_by_line home away outs)
    (fun k x y => ⟨captured, fid, bm, "spreads", some k, some x, some y⟩)
    (fun k x y => rfl) hnd l
  have hA : hasA (spreads_by_line home away outs) l = outs.any (spreadHomeAt home l) := by
    rw [spreads_by_line, spreads_fold_hasA]
    simp [hasA, lookupLine]
  have hB : hasB (spreads_by_line home away outs) l = outs.any (spreadAwayAt home away l) := by
    rw [spreads_by_line, spreads_fold_hasB]
    simp [hasB, lookupLine]
  unfold store_spreads_rows
  refine Eq.trans hcnt ?_
  by_cases hex : (∃ o ∈ outs, spreadHomeAt home l o) ∧ (∃ o ∈ outs, spreadAwayAt home away l o)
  · rw [if_pos hex]
    have hAtrue : outs.any (spreadHomeAt home l) = true := List.any_eq_true.mpr hex.1
    have hBtrue : outs.any (spreadAwayAt home away l) = true := List.any_eq_true.mpr hex.2
    rw [hAtrue] at hA
    rw [hBtrue] at hB
    cases hlk : lookupLine (spreads_by_line home away outs) l with
    | none =>
      rw [hasA, hlk] at hA
      simp at hA
    | some s =>
      rw [hasA, hlk] at hA
      rw [hasB, hlk] at hB
      simp only at hA hB
      simp [hA, hB]
  · rw [if_neg hex]
    have hor : outs.any (spreadHomeAt home l) = false ∨
        outs.any (spreadAwayAt home away l) = false := by
      by_contra hc
      push_neg at hc
      rw [Bool.ne_false_iff, List.any_eq_true] at hc
      rcases hc with ⟨h1, h2⟩
      rw [Bool.ne_false_iff, List.any_eq_true] at h2
      exact hex ⟨h1, h2⟩
    cases hlk : lookupLine (spreads_by_line home away outs) l with
    | none => rfl
    | some s =>
      rw [hasA, hlk] at hA
      rw [hasB, hlk] at hB
      simp only at hA hB
      rcases hor with hfa | hfa
      · rw [hfa] at hA
        simp [hA]
      · rw [hfa] at hB
        simp [hB]

/-- C4 (amended): the spreads extractor groups outcomes by their exact
point value and emits one row per point value at which both a home-named
and an away-named outcome (with prices) are present — the line is that
shared point (which is the home side's point for emitted rows), with the
home price as side A (`over_price`) and the away price as side B
(`under_price`): every emitted row's side-A price is the price of a
home-named outcome at the row's line, and its side-B price that of an
away-named outcome.  Home/away outcomes carrying mutually negated points
fall in different groups and produce no row. -/
theorem C4_amended_spreads_shared_point (captured fid bm home away : String)
    (outs : List Outcome) (l : ℚ) :
    ((store_spreads_rows captured fid bm home away outs).countP
        (fun r => decide (r.line = some l)) =
      if (∃ o ∈ outs, spreadHomeAt home l o) ∧ (∃ o ∈ outs, spreadAwayAt home away l o)
      then 1 else 0) ∧
    (∀ r ∈ store_spreads_rows captured fid bm home away outs,
      ∃ ln, r.line = some ln ∧
        (∃ o ∈ outs, spreadHomeAt home ln o = true ∧ o.price = r.over_price) ∧
        (∃ o ∈ outs, spreadAwayAt home away ln o = true ∧ o.price = r.under_price)) := by
  constructor
  · exact C4_count_aux captured fid bm home away outs l
  · intro r hr
    unfold store_spreads_rows at hr
    rcases List.mem_filterMap.mp hr with ⟨kv, hkv, heq⟩
    obtain ⟨k, s⟩ := kv
    cases hsa : s.a with
    | none =>
      rw [hsa] at heq
      simp at heq
    | some hp =>
      cases hsb : s.b with
      | none =>
        rw [hsa, hsb] at heq
        simp at heq
      | some ap =>
        rw [hsa, hsb] at heq
        have hr2 : (⟨captured, fid, bm, "spreads", some k, some hp, some ap⟩ : InsRow) = r :=
          Option.some.inj heq
        subst hr2
        have hnd : ((spreads_by_line home away outs).map Prod.fst).Nodup :=
          nodupKeys_spreads_fold home away outs [] (by simp)
        have hlk : lookupLine (spreads_by_line home away outs) k = some s :=
          lookupLine_of_mem_nodup _ k s hkv hnd
        refine ⟨k, rfl, ?_, ?_⟩
        · have hslot : slotA (spreads_by_line home away outs) k = some hp := by
            rw [slotA, hlk]
            exact hsa
          rcases spreads_fold_slotA home away outs [] k hp hslot with h0 | hex
          · rw [slotA] at h0
            simp [lookupLine] at h0
          · obtain ⟨o, ho, hhome, hprice⟩ := hex
            exact ⟨o, ho, hhome, hprice⟩
        · have hslot : slotB (spreads_by_line home away outs) k = some ap := by
            rw [slotB, hlk]
            exact hsb
          rcases spreads_fold_slotB home away outs [] k ap hslot with h0 | hex
          · rw [slotB] at h0
            simp [lookupLine] at h0
          · obtain ⟨o, ho, haway, hprice⟩ := hex
            exact ⟨o, ho, haway, hprice⟩

/-- C4 (witness for the amended theorem): on a spreads market quoting
both teams at the same point -2, the single emitted row carries that
point as its line, the home outcome's price 2 as side A and the away
outcome's price 3 as side B. -/
theorem C4_witness :
    ∃ ln, (InsRow.line ⟨"2026-01-19T09:00:00Z", "42", "Bet1", "spreads",
        some (-2), some 2, some 3⟩) = some ln ∧
      (∃ o ∈ [(⟨some "HomeTeam", some 2, some (-2)⟩ : Outcome),
              ⟨some "AwayTeam", some 3, some (-2)⟩],
        spreadHomeAt "HomeTeam" ln o = true ∧
        o.price = (InsRow.over_price ⟨"2026-01-19T09:00:00Z", "42", "Bet1", "spreads",
          some (-2), some 2, some 3⟩)) ∧
      (∃ o ∈ [(⟨some "HomeTeam", some 2, some (-2)⟩ : Outcome),
              ⟨some "AwayTeam", some 3, some (-2)⟩],
        spreadAwayAt "HomeTeam" "AwayTeam" ln o = true ∧
        o.price = (InsRow.under_price ⟨"2026-01-19T09:00:00Z", "42", "Bet1", "spreads",
          some (-2), some 2, some 3⟩)) :=
  (C4_amended_spreads_shared_point "2026-01-19T09:00:00Z" "42" "Bet1" "HomeTeam" "AwayTeam"
    [⟨some "HomeTeam", some 2, some (-2)⟩, ⟨some "AwayTeam", some 3, some (-2)⟩] 0).2
    ⟨"2026-01-19T09:00:00Z", "42", "Bet1", "spreads", some (-2), some 2, some 3⟩
    (by decide)

/-! ### Claim C5 -/

theorem strLtChars_both_false : ∀ (a b : List Char),
    strLtChars a b = false → strLtChars b a = false → a = b
  | [], [], _, _ => rfl
  | [], _ :: _, h1, _ => by simp [strLtChars] at h1
  | _ :: _, [], _, h2 => by simp [strLtChars] at h2
  | a :: as, b :: bs, h1, h2 => by
    by_cases hab : a.toNat < b.toNat
    · rw [strLtChars, if_pos hab] at h1
      cases h1
    · by_cases hba : b.toNat < a.toNat
      · rw [strLtChars, if_pos hba] at h2
        cases h2
      · have heq : a = b := by
          apply Char.ext
          apply UInt32.toNat.inj
          have hab2 : ¬ a.val.toNat < b.val.toNat := hab
          have hba2 : ¬ b.val.toNat < a.val.toNat := hba
          omega
        rw [strLtChars, if_neg hab, if_neg (heq ▸ hab)] at h1
        rw [strLtChars, if_neg hba, if_neg (heq ▸ hba)] at h2
        rw [heq, strLtChars_both_false as bs h1 h2]

theorem sqlTextLt_both_false (a b : String)
    (h1 : sqlTextLt a b = false) (h2 : sqlTextLt b a = false) : a = b := by
  obtain ⟨la⟩ := a
  obtain ⟨lb⟩ := b
  exact congrArg String.mk (strLtChars_both_false la lb h1 h2)

/-- Forward characterization of `latest_rows` membership: a returned row
comes from some snapshot row of an allowed market that joined a fixture
and is unbeaten within its partition. -/
theorem latest_rows_spec (snaps : List SnapRow) (fixtures : List Fixture) (x : ExportRow)
    (hx : x ∈ latest_rows snaps fixtures) :
    ∃ o ∈ snaps, ∃ f,
      fixtures.find? (fun g => g.fixture_id == o.fixture_id) = some f ∧
      o.market ∈ ALLOWED_MARKETS ∧
      snaps.all (fun p => !(samePartition p o) || !(beats p o)) = true ∧
      x = mkExportRow o f := by
  rcases List.mem_filterMap.mp hx with ⟨o, ho, heq⟩
  by_cases hm : o.market ∈ ALLOWED_MARKETS
  · rw [if_pos hm] at heq
    cases hf : fixtures.find? (fun g => g.fixture_id == o.fixture_id) with
    | none =>
      rw [hf] at heq
      cases heq
    | some f =>
      rw [hf] at heq
      have heq2 : (if (snaps.all fun p => !(samePartition p o) || !(beats p o)) = true
          then some (mkExportRow o f) else none) = some x := heq
      by_cases hall : (snaps.all fun p => !(samePartition p o) || !(beats p o)) = true
      · rw [if_pos hall] at heq2
        exact ⟨o, ho, f, hf, hm, hall, (Option.some.inj heq2).symm⟩
      · rw [if_neg hall] at heq2
        cases heq2
  · rw [if_neg hm] at heq
    cases heq

/-- C5: the `latest()` read path returns at most one row per distinct
`(fixture_id, bookmaker, market, line)` key, and each returned row's
`captured_at_utc` is maximal (in SQLite TEXT order) among all stored
snapshot rows of that key; ties on `captured_at_utc` are broken by the
deterministic insertion sequence.  The hypothesis is the AUTOINCREMENT
guarantee: distinct physical rows have distinct `snapshot_id`s. -/
theorem C5_latest_unique_per_key_and_max (snaps : List SnapRow) (fixtures : List Fixture)
    (hids : (snaps.map (fun r => r.snapshot_id)).Nodup) :
    (∀ x ∈ latest_rows snaps fixtures, ∀ y ∈ latest_rows snaps fixtures,
      x.fixture_id = y.fixture_id → x.bookmaker = y.bookmaker → x.market = y.market →
      x.line = y.line → x = y) ∧
    (∀ x ∈ latest_rows snaps fixtures, ∀ o ∈ snaps,
      o.fixture_id = x.fixture_id → o.bookmaker = x.bookmaker → o.market = x.market →
      o.line = x.line → sqlTextLt x.captured_at_utc o.captured_at_utc = false) := by
  constructor
  · intro x hx y hy h1 h2 h3 h4
    obtain ⟨o1, ho1, f1, hf1, hm1, hall1, hx1⟩ := latest_rows_spec snaps fixtures x hx
    obtain ⟨o2, ho2, f2, hf2, hm2, hall2, hy2⟩ := latest_rows_spec snaps fixtures y hy
    subst hx1
    subst hy2
    have hk1 : o1.fixture_id = o2.fixture_id := h1
    have hk2 : o1.bookmaker = o2.bookmaker := h2
    have hk3 : o1.market = o2.market := h3
    have hk4 : o1.line = o2.line := h4
    have hsp21 : samePartition o2 o1 = true := by
      simp [samePartition, hk1.symm, hk2.symm, hk3.symm, hk4.symm]
    have hsp12 : samePartition o1 o2 = true := by
      simp [samePartition, hk1, hk2, hk3, hk4]
    have hb21 : beats o2 o1 = false := by
      have := List.all_eq_true.mp hall1 o2 ho2
      rw [hsp21] at this
      simpa using this
    have hb12 : beats o1 o2 = false := by
      have := List.all_eq_true.mp hall2 o1 ho1
      rw [hsp12] at this
      simpa using this
    rw [beats, Bool.or_eq_false_iff] at hb21 hb12
    have hceq : o1.captured_at_utc = o2.captured_at_utc :=
      sqlTextLt_both_false _ _ hb21.1 hb12.1
    have hid : o1.snapshot_id = o2.snapshot_id := by
      have e21 := hb21.2
      have e12 := hb12.2
      rw [hceq] at e21 e12
      simp at e21 e12
      omega
    have ho12 : o1 = o2 :=
      List.inj_on_of_nodup_map hids ho1 ho2 hid
    subst ho12
    rw [hf1] at hf2
    rw [Option.some.inj hf2]
  · intro x hx o ho h1 h2 h3 h4
    obtain ⟨o1, ho1, f1, hf1, hm1, hall1, hx1⟩ := latest_rows_spec snaps fixtures x hx
    subst hx1
    have hsp : samePartition o o1 = true := by
      simp [samePartition, mkExportRow, h1, h2, h3, h4]
    have hb : beats o o1 = false := by
      have := List.all_eq_true.mp hall1 o ho
      rw [hsp] at this
      simpa using this
    rw [beats, Bool.or_eq_false_iff] at hb
    exact hb.1

/-- C5 (witness): on a two-row store sharing one key, the maximality half
of the theorem instantiates to a concrete string comparison. -/
theorem C5_witness :
    sqlTextLt "2026-01-19T11:00:00Z" "2026-01-19T10:00:00Z" = false :=
  (C5_latest_unique_per_key_and_max
    [⟨1, "2026-01-19T10:00:00Z", "42", "Bet1", "totals", some 3, some 2, some 2⟩,
     ⟨2, "2026-01-19T11:00:00Z", "42", "Bet1", "totals", some 3, some 2, some 3⟩]
    [⟨"42", "2026-01-19T15:00:00Z", some 22, "SCHEDULED", "Arsenal FC", "Chelsea FC",
      none, none, none⟩]
    (by decide)).2
    (mkExportRow
      ⟨2, "2026-01-19T11:00:00Z", "42", "Bet1", "totals", some 3, some 2, some 3⟩
      ⟨"42", "2026-01-19T15:00:00Z", some 22, "SCHEDULED", "Arsenal FC", "Chelsea FC",
        none, none, none⟩)
    (by decide)
    ⟨1, "2026-01-19T10:00:00Z", "42", "Bet1", "totals", some 3, some 2, some 2⟩
    (by decide) rfl rfl rfl rfl

/-! ### Claim C10 -/

theorem mem_insertSorted {α : Type _} (le : α → α → Bool) (a x : α) (l : List α) :
    x ∈ insertSorted le a l ↔ x = a ∨ x ∈ l := by
  induction l with
  | nil => simp [insertSorted]
  | cons b t ih =>
    by_cases h : le a b
    · simp [insertSorted, h]
    · simp only [insertSorted, if_neg h, List.mem_cons, ih]
      tauto

theorem mem_sortBy {α : Type _} (le : α → α → Bool) (x : α) (l : List α) :
    x ∈ sortBy le l ↔ x ∈ l := by
  induction l with
  | nil => simp [sortBy]
  | cons b t ih =>
    show x ∈ insertSorted le b (sortBy le t) ↔ _
    rw [mem_insertSorted, ih]
    simp

/-- C10: in the exported `items` document, every btts row's line is
rewritten to null — whatever numeric line is stored for it — while every
row of any other market carries its stored line unchanged (it equals the
`line` of a stored snapshot row of the same market). -/
theorem C10_export_rewrites_btts_line (snaps : List SnapRow) (fixtures : List Fixture)
    (limit : Nat) :
    ∀ it ∈ export_odds_json snaps fixtures limit,
      (it.market = "btts" → it.line = none) ∧
      (it.market ≠ "btts" → ∃ o ∈ snaps, o.market = it.market ∧ it.line = o.line) := by
  intro it hit
  unfold export_odds_json at hit
  rcases List.mem_map.mp hit with ⟨r, hr, hit2⟩
  have hr2 : r ∈ sortBy exportOrdLE (latest_rows snaps fixtures) := List.mem_of_mem_take hr
  have hr3 : r ∈ latest_rows snaps fixtures := (mem_sortBy _ _ _).mp hr2
  obtain ⟨o, ho, f, hf, hm, hall, hro⟩ := latest_rows_spec snaps fixtures r hr3
  subst hit2
  constructor
  · intro hb
    have hb2 : r.market = "btts" := hb
    simp [mkItem, hb2]
  · intro hb
    have hb2 : r.market ≠ "btts" := hb
    refine ⟨o, ho, ?_, ?_⟩
    · rw [hro]
      rfl
    · rw [show (mkItem r).line = r.line from by simp [mkItem, hb2]]
      rw [hro]
      rfl

/-- C10 (witness): a btts snapshot stored with the numeric line 0.0 is
exported with a null line. -/
theorem C10_witness :
    ((mkItem (mkExportRow
        ⟨3, "2026-01-19T10:00:00Z", "42", "Bet1", "btts", some 0, some 2, some 3⟩
        ⟨"42", "2026-01-19T15:00:00Z", some 22, "SCHEDULED", "Arsenal FC", "Chelsea FC",
          none, none, none⟩)).market = "btts" →
      (mkItem (mkExportRow
        ⟨3, "2026-01-19T10:00:00Z", "42", "Bet1", "btts", some 0, some 2, some 3⟩
        ⟨"42", "2026-01-19T15:00:00Z", some 22, "SCHEDULED", "Arsenal FC", "Chelsea FC",
          none, none, none⟩)).line = none) ∧
    ((mkItem (mkExportRow
        ⟨3, "2026-01-19T10:00:00Z", "42", "Bet1", "btts", some 0, some 2, some 3⟩
        ⟨"42", "2026-01-19T15:00:00Z", some 22, "SCHEDULED", "Arsenal FC", "Chelsea FC",
          none, none, none⟩)).market ≠ "btts" →
      ∃ o ∈ [(⟨3, "2026-01-19T10:00:00Z", "42", "Bet1", "btts", some 0, some 2, some 3⟩ : SnapRow)],
        o.market = (mkItem (mkExportRow
          ⟨3, "2026-01-19T10:00:00Z", "42", "Bet1", "btts", some 0, some 2, some 3⟩
          ⟨"42", "2026-01-19T15:00:00Z", some 22, "SCHEDULED", "Arsenal FC", "Chelsea FC",
            none, none, none⟩)).market ∧
        (mkItem (mkExportRow
          ⟨3, "2026-01-19T10:00:00Z", "42", "Bet1", "btts", some 0, some 2, some 3⟩
          ⟨"42", "2026-01-19T15:00:00Z", some 22, "SCHEDULED", "Arsenal FC", "Chelsea FC",
            none, none, none⟩)).line = o.line) :=
  C10_export_rewrites_btts_line
    [⟨3, "2026-01-19T10:00:00Z", "42", "Bet1", "btts", some 0, some 2, some 3⟩]
    [⟨"42", "2026-01-19T15:00:00Z", some 22, "SCHEDULED", "Arsenal FC", "Chelsea FC",
      none, none, none⟩]
    10
    (mkItem (mkExportRow
      ⟨3, "2026-01-19T10:00:00Z", "42", "Bet1", "btts", some 0, some 2, some 3⟩
      ⟨"42", "2026-01-19T15:00:00Z", some 22, "SCHEDULED", "Arsenal FC", "Chelsea FC",
        none, none, none⟩))
    (by decide)
